import Mathlib

/-!
Verification of the semantic-cache core of the instantcodedb repository.

The development shallowly embeds the TypeScript sources:
  * `src/lib/embedding-service.ts` — context builders, embedding fallback,
    cosine similarity (JS `number` arithmetic is modelled by `ℝ`);
  * `src/lib/semantic-cache.ts` — lookup, write, id generation, eviction
    (the Redis store is modelled as an association list from structured
    keys to stored values; in this sequential model a `GET` of an
    enumerated key always returns the stored string, so the only
    "unreadable" values are ones that fail `JSON.parse`, modelled as
    `Option.none` data);
  * the streaming route handlers (`src/app/api/code-suggestion/stream/route.ts`
    and the chat stream route) — request validation and the cache-effect
    structure of the handler.

Key strings `code_suggestion:<language>:<framework>:<id>` are modelled by the
structured key `RKey`; the glob lookup `code_suggestion:L:F:*` is modelled as
filtering on the language and framework components, which is faithful for the
colon- and wildcard-free language/framework/mode tags the application produces.
-/

namespace InstantCodeDB

/-! ## JS helper semantics -/

/-- JS `String.prototype.substring(a, b)` for `a ≤ b`, on the character list
of a string (UTF-16 code units are modelled as characters; all inputs used by
the claims are in the basic plane, where the two coincide). -/
def jsSubstring (s : String) (a b : Nat) : String :=
  String.mk ((s.data.take b).drop a)

/-- The index at which JS `Array.prototype.slice(0, e)` stops on an array of
length `len`: a negative `e` counts from the end of the array
(`max (len + e) 0`), a non-negative one is clamped to `len`. -/
def jsSliceEnd (len : Nat) (e : Int) : Nat :=
  if e < 0 then ((len : Int) + e).toNat else min e.toNat len

/-- JS `arr.slice(0, e)`. -/
def jsSliceTo {α : Type} (l : List α) (e : Int) : List α :=
  l.take (jsSliceEnd l.length e)

/-- Character-list worker for `jsSplitNl`; `acc` holds the current segment
reversed. -/
def jsSplitNlGo : List Char → List Char → List String
  | [], acc => [String.mk acc.reverse]
  | c :: cs, acc =>
    if c = '\n' then String.mk acc.reverse :: jsSplitNlGo cs []
    else jsSplitNlGo cs (c :: acc)

/-- JS `s.split("\n")`: segments between newline separators, with
`"".split("\n") = [""]` and a trailing empty segment after a final newline.
Defined structurally so that concrete contexts evaluate inside the kernel. -/
def jsSplitNl (s : String) : List String :=
  jsSplitNlGo s.data []

/-- JS `ToInt32` conversion: wrap an integer into `[-2^31, 2^31)`. -/
def toInt32 (n : Int) : Int :=
  (n + 2 ^ 31) % 2 ^ 32 - 2 ^ 31

/-- Lower-case base-36 digit, as produced by JS `Number.prototype.toString(36)`. -/
def base36Digit (n : Nat) : Char :=
  if n < 10 then Char.ofNat (48 + n) else Char.ofNat (87 + n)

/-- Digit accumulation for base-36 rendering.  The first argument is fuel
(structural, so that concrete ids evaluate inside the kernel); any fuel bound
of at least the digit count yields the full rendering, and callers pass `n + 1`. -/
def toBase36Go : Nat → Nat → List Char → List Char
  | 0, _, acc => acc
  | fuel + 1, n, acc =>
    if n = 0 then acc else toBase36Go fuel (n / 36) (base36Digit (n % 36) :: acc)

/-- JS `n.toString(36)` for a natural number. -/
def jsToString36 (n : Nat) : String :=
  if n = 0 then "0" else String.mk (toBase36Go (n + 1) n [])

/-! ## Similarity engine (`calculateSimilarity`, embedding-service.ts:75-90) -/

/-- The dot-product accumulator of the similarity loop. -/
def dotProduct (e1 e2 : List ℝ) : ℝ :=
  (List.zipWith (fun x y => x * y) e1 e2).sum

/-- The squared-norm accumulator (`norm1`/`norm2`) of the similarity loop. -/
def sumSquares (e : List ℝ) : ℝ :=
  (e.map (fun x => x * x)).sum

/-- `calculateSimilarity` from embedding-service.ts: `0` on a dimension
mismatch, otherwise cosine similarity with a `0` fallback when the product of
the magnitudes is `0`. -/
noncomputable def calculateSimilarity (e1 e2 : List ℝ) : ℝ :=
  if e1.length ≠ e2.length then 0
  else
    let dotP := dotProduct e1 e2
    let magnitude := Real.sqrt (sumSquares e1) * Real.sqrt (sumSquares e2)
    if magnitude = 0 then 0 else dotP / magnitude

/-! ## Embedding service (`generateEmbedding`, embedding-service.ts:16-26) -/

/-- `generateEmbedding`, as a function of the model call's outcome: the
vector produced by the model on success, and the zero-vector sentinel of
length 384 when the model call throws. -/
def generateEmbedding (modelResult : Option (List ℝ)) : List ℝ :=
  match modelResult with
  | some v => v
  | none => List.replicate 384 0

/-! ## Context builders (embedding-service.ts:28-73) -/

/-- `createCodeContext` from embedding-service.ts.  The cursor is a
`Nat` because both route handlers reject negative cursors before the cache is
reached, which makes JS `Math.max(0, cursorLine - r)` coincide with truncated
subtraction.  `lines[cursorLine] || ''` agrees with `getD` both out of bounds
(`undefined` → `''`) and on an empty line (`'' || ''`). -/
def createCodeContext (fileContent : String) (cursorLine cursorColumn : Nat)
    (language framework : String) : String :=
  let lines := jsSplitNl fileContent
  let contextRadius := 5
  let startLine := cursorLine - contextRadius
  let endLine := min lines.length (cursorLine + contextRadius)
  let contextLines := (lines.take endLine).drop startLine
  let currentLine := lines.getD cursorLine ""
  String.intercalate "\n"
    (["Language: " ++ language,
      "Framework: " ++ framework,
      "Context:"]
      ++ contextLines
      ++ ["Cursor at line " ++ toString cursorLine ++ ", column " ++ toString cursorColumn,
          "Current line: " ++ currentLine])

/-- One prior conversation turn, as consumed by `createChatContext`. -/
structure ChatTurn where
  role : String
  content : String
deriving DecidableEq

/-- `createChatContext` from embedding-service.ts: mode tag, the literal
header, the last three turns truncated to 200 characters, and the message. -/
def createChatContext (message : String) (mode : String) (history : List ChatTurn) : String :=
  let recentHistory := history.drop (history.length - 3)
  String.intercalate "\n"
    (["Mode: " ++ mode,
      "Recent conversation:"]
      ++ recentHistory.map (fun msg => msg.role ++ ": " ++ jsSubstring msg.content 0 200)
      ++ ["Current message: " ++ message])

/-! ## Semantic cache data model (semantic-cache.ts) -/

/-- Structured form of a storage key `code_suggestion:<language>:<framework>:<id>`. -/
structure RKey where
  language : String
  framework : String
  id : String
deriving DecidableEq

/-- `CacheEntry` from semantic-cache.ts. -/
structure CacheEntry where
  id : String
  context : String
  embedding : List ℝ
  suggestion : String
  language : String
  framework : String
  timestamp : Int
  hitCount : Int

/-- A value held by the store under one key: the remaining time-to-live that
`SETEX` installed, and the parse of the stored JSON — `none` models a value
that `JSON.parse` rejects (a corrupted entry). -/
structure StoredVal where
  ttl : Int
  data : Option CacheEntry

/-- The Redis keyspace reachable under the cache prefix, in the (arbitrary
but fixed) order in which `KEYS` enumerates it. -/
abbrev Store : Type := List (RKey × StoredVal)

/-- `CodeContextInput` from semantic-cache.ts.  Cursors are `Nat` because
both route handlers reject negative cursors before constructing this input. -/
structure CodeContextInput where
  fileContent : String
  cursorLine : Nat
  cursorColumn : Nat
  language : String
  framework : String
  suggestionType : String

/-- `SIMILARITY_THRESHOLD` (semantic-cache.ts:26). -/
noncomputable def SIMILARITY_THRESHOLD : ℝ := 0.85

/-- `MAX_CACHE_SIZE` (semantic-cache.ts:27). -/
def MAX_CACHE_SIZE : Nat := 1000

/-- `CACHE_TTL` (semantic-cache.ts:28), in seconds. -/
def CACHE_TTL : Int := 7 * 24 * 60 * 60

/-- Redis `SETEX key ttl value`: overwrite the value under `key` if present,
create it otherwise; either way the key carries the fresh `ttl`. -/
def setEx (store : Store) (k : RKey) (ttl : Int) (e : CacheEntry) : Store :=
  if store.any (fun kv => kv.1 = k) then
    store.map (fun kv => if kv.1 = k then (k, StoredVal.mk ttl (some e)) else kv)
  else
    store ++ [(k, StoredVal.mk ttl (some e))]

/-- The context both `getCachedSuggestion` and `cacheSuggestion` build
(semantic-cache.ts:36-49 and 118-133): chat inputs use `createChatContext`
with an empty history, code inputs use `createCodeContext`. -/
def buildCacheContext (input : CodeContextInput) : String :=
  if input.language = "Chat" then
    createChatContext input.fileContent input.framework []
  else
    createCodeContext input.fileContent input.cursorLine input.cursorColumn
      input.language input.framework

/-- One step of `simpleHash` (semantic-cache.ts:175-183): JS
`hash = (hash << 5) - hash + charCode` followed by `hash = hash & hash`,
i.e. a 32-bit shift, exact double arithmetic, then `ToInt32` truncation. -/
def simpleHashStep (hash : Int) (c : Nat) : Int :=
  toInt32 (toInt32 (hash * 2 ^ 5) - hash + c)

/-- `simpleHash` from semantic-cache.ts: fold the step over the characters
and render `Math.abs(hash)` in base 36. -/
def simpleHash (s : String) : String :=
  jsToString36 (s.data.foldl (fun h c => simpleHashStep h c.toNat) 0).natAbs

/-- `generateCacheId` (semantic-cache.ts:166-173): the current time and the
hash of `fileContent.substring(max(0, cursorLine - 2), cursorLine + 3)` —
a character-index slice — concatenated with the suggestion type. -/
def generateCacheId (now : Int) (input : CodeContextInput) : String :=
  let hash := simpleHash
    (jsSubstring input.fileContent (input.cursorLine - 2) (input.cursorLine + 3)
      ++ input.suggestionType)
  toString now ++ "_" ++ hash

/-- The namespace pre-filter `KEYS code_suggestion:<language>:<framework>:*`
(semantic-cache.ts:57-58). -/
def nsEntries (input : CodeContextInput) (store : Store) : List (RKey × StoredVal) :=
  store.filter (fun kv => kv.1.language = input.language ∧ kv.1.framework = input.framework)

/-- The loop guard `!bestMatch || similarity > bestMatch.similarity`
(semantic-cache.ts:79). -/
def betterThan (s : ℝ) : Option (RKey × ℝ × CacheEntry) → Prop
  | none => True
  | some b => b.2.1 < s

open Classical in
/-- The best-match loop of `getCachedSuggestion` (semantic-cache.ts:70-86):
walk the candidate keys, skip entries that fail to parse, and keep the entry
whose similarity both exceeds the threshold and strictly exceeds the best so
far. -/
noncomputable def scanEntries (q : List ℝ) :
    List (RKey × StoredVal) → Option (RKey × ℝ × CacheEntry) → Option (RKey × ℝ × CacheEntry)
  | [], best => best
  | kv :: rest, best =>
    scanEntries q rest
      (match kv.2.data with
       | none => best
       | some entry =>
         let s := calculateSimilarity q entry.embedding
         if SIMILARITY_THRESHOLD < s ∧ betterThan s best then
           some (kv.1, s, entry)
         else best)

/-- `getCachedSuggestion` (semantic-cache.ts:30-113), with the embedding
model abstracted as the deterministic function `embed` and `Date.now()` as
`now`.  On a qualifying best match the entry is written back with `hitCount`
incremented, `timestamp` refreshed and the full TTL, and its suggestion is
returned; otherwise the store is untouched and no result is returned. -/
noncomputable def getCachedSuggestion (embed : String → List ℝ) (now : Int)
    (input : CodeContextInput) (store : Store) : Option String × Store :=
  let context := buildCacheContext input
  let queryEmbedding := embed context
  let keys := nsEntries input store
  if keys.length = 0 then (none, store)
  else
    match scanEntries queryEmbedding keys none with
    | none => (none, store)
    | some (k, _, entry) =>
      let updated : CacheEntry :=
        { entry with hitCount := entry.hitCount + 1, timestamp := now }
      (some entry.suggestion, setEx store k CACHE_TTL updated)

/-- The readable `(key, entry)` pairs of a key list. -/
def readableIn (l : List (RKey × StoredVal)) : List (RKey × CacheEntry) :=
  l.filterMap (fun kv => kv.2.data.map (fun e => (kv.1, e)))

/-- The readable `(key, timestamp, hitCount)` triples of a store, exactly as
the eviction sweep collects them (semantic-cache.ts:195-211; `JSON.parse`
failures are skipped here and deleted by the sweep). -/
def readTriples (store : Store) : List (RKey × Int × Int) :=
  store.filterMap (fun kv => kv.2.data.map (fun e => (kv.1, e.timestamp, e.hitCount)))

/-- The eviction comparator (semantic-cache.ts:216-221) on the collected
`(key, timestamp, hitCount)` triples: hit count ascending, ties by timestamp
ascending. -/
def entryLEP (a b : RKey × Int × Int) : Prop :=
  a.2.2 < b.2.2 ∨ (a.2.2 = b.2.2 ∧ a.2.1 ≤ b.2.1)

instance entryLEP.decidableRel : DecidableRel entryLEP :=
  fun a b => inferInstanceAs (Decidable (a.2.2 < b.2.2 ∨ (a.2.2 = b.2.2 ∧ a.2.1 ≤ b.2.1)))

instance entryLEP.isTotal : IsTotal (RKey × Int × Int) entryLEP := by
  constructor
  intro a b
  unfold entryLEP
  omega

instance entryLEP.isTrans : IsTrans (RKey × Int × Int) entryLEP := by
  constructor
  intro a b c hab hbc
  unfold entryLEP at *
  omega

/-- `cleanupOldEntries` (semantic-cache.ts:186-232).  When more than
`MAX_CACHE_SIZE` keys exist: corrupted values are deleted as the sweep reads
them, the readable `(key, timestamp, hitCount)` triples are stably sorted by
the comparator, and `entries.slice(0, entries.length - MAX_CACHE_SIZE + 100)`
— with JS semantics for a negative end index — names the keys to delete. -/
def cleanupOldEntries (store : Store) : Store :=
  if store.length ≤ MAX_CACHE_SIZE then store
  else
    (store.filter (fun kv => kv.2.data.isSome)).filter
      (fun kv =>
        ¬ (jsSliceTo ((readTriples store).insertionSort entryLEP)
            (((readTriples store).length : Int) - (MAX_CACHE_SIZE : Int) + 100)).any
          (fun t => t.1 = kv.1))

/-- `cacheSuggestion` (semantic-cache.ts:115-164): build the context and its
embedding, store a fresh entry (trimmed suggestion, zero hit count, current
timestamp) under its namespace key with the full TTL, then run the eviction
sweep. -/
noncomputable def cacheSuggestion (embed : String → List ℝ) (now : Int)
    (input : CodeContextInput) (suggestion : String) (store : Store) : Store :=
  let context := buildCacheContext input
  let embedding := embed context
  let entry : CacheEntry :=
    { id := generateCacheId now input
      context := context
      embedding := embedding
      suggestion := suggestion.trim
      language := input.language
      framework := input.framework
      timestamp := now
      hitCount := 0 }
  let key : RKey := RKey.mk input.language input.framework entry.id
  cleanupOldEntries (setEx store key CACHE_TTL entry)

/-! ## Streaming route handlers -/

/-- The JSON body of a code-suggestion request; absent fields are `none`. -/
structure CodeRequestBody where
  fileContent : Option String
  cursorLine : Option Int
  cursorColumn : Option Int
  suggestionType : Option String
  fileName : Option String

/-- JS falsiness of an optional string field: `undefined` and `""` are falsy. -/
def jsFalsyStr : Option String → Bool
  | none => true
  | some s => s = ""

/-- JS `v || d` on an optional string: the default replaces both an absent
field and an empty string. -/
def jsOrDefault (v : Option String) (d : String) : String :=
  match v with
  | none => d
  | some s => if s = "" then d else s

/-- JS `field < 0` for an optional numeric field: `undefined < 0` is `false`. -/
def jsNegative : Option Int → Bool
  | none => false
  | some n => n < 0

/-- The validation test of the code-suggestion POST handler (route.ts:254):
`!fileContent || cursorLine < 0 || cursorColumn < 0 || !suggestionType`. -/
def codePostRejects (b : CodeRequestBody) : Bool :=
  jsFalsyStr b.fileContent || jsNegative b.cursorLine || jsNegative b.cursorColumn
    || jsFalsyStr b.suggestionType

/-- An observable action of the handler on the cache/generation layer. -/
inductive CacheEffect where
  | lookup (input : CodeContextInput)
  | generate
  | write (input : CodeContextInput) (suggestion : String)

/-- An HTTP response, reduced to status and body text. -/
structure PostResponse where
  status : Nat
  body : String

/-- The code-suggestion POST handler (route.ts:248-509), shallowly: reject
invalid bodies with a 400 response before any cache or generation work;
otherwise build the cache input from the detected language and framework
(`detect` abstracts `analyzeCodeContext`), perform the lookup, and on a miss
call the generator (`genResult`, `none` meaning an upstream failure) and cache
a non-blank result.  The second component lists the cache and generation
effects that the handler performed, in order.  On the accepted branch the
model reads cursor fields with a `getD` default; the claims exercise only the
rejection branch, and validation guarantees any present cursor field is
non-negative. -/
noncomputable def codeStreamPOST (detect : String → Option String → String × String)
    (embed : String → List ℝ) (now : Int) (genResult : Option String)
    (b : CodeRequestBody) (store : Store) :
    PostResponse × List CacheEffect × Store :=
  if codePostRejects b then
    (PostResponse.mk 400 "Invalid input parameters", [], store)
  else
    let fc := b.fileContent.getD ""
    let lf := detect fc b.fileName
    let input : CodeContextInput :=
      { fileContent := fc
        cursorLine := (b.cursorLine.getD 0).toNat
        cursorColumn := (b.cursorColumn.getD 0).toNat
        language := lf.1
        framework := lf.2
        suggestionType := b.suggestionType.getD "" }
    match getCachedSuggestion embed now input store with
    | (some s, store1) =>
      (PostResponse.mk 200 s, [CacheEffect.lookup input], store1)
    | (none, store1) =>
      match genResult with
      | none =>
        (PostResponse.mk 200 "", [CacheEffect.lookup input, CacheEffect.generate], store1)
      | some sugg =>
        if sugg.trim = "" then
          (PostResponse.mk 200 sugg,
            [CacheEffect.lookup input, CacheEffect.generate], store1)
        else
          (PostResponse.mk 200 sugg,
            [CacheEffect.lookup input, CacheEffect.generate, CacheEffect.write input sugg],
            cacheSuggestion embed now input sugg store1)

/-- The `cacheInput` the chat stream route builds (part_007, lines 62-72):
the raw message as content, cursor `(0, 0)`, language `"Chat"`, the mode (or
its default) as framework.  The conversation `history` is an argument of the
handler but, exactly as in the source, does not flow into the cache input. -/
def chatCacheInput (message : String) (history : List ChatTurn) (mode : Option String) :
    CodeContextInput :=
  let _ := history
  { fileContent := message
    cursorLine := 0
    cursorColumn := 0
    language := "Chat"
    framework := jsOrDefault mode "chat"
    suggestionType := "chat_" ++ jsOrDefault mode "general" }

/-! ## Spec-side definitions, for refinement comparisons -/

/-- The code context as the specification describes it: the windowed lines
are those within radius 5 on each side of the cursor line — five before and
five after, clamped to file bounds. -/
def codeContextClaimC3 (fileContent : String) (cursorLine cursorColumn : Nat)
    (language framework : String) : String :=
  let lines := jsSplitNl fileContent
  let window := ((List.range lines.length).filter
      (fun i => cursorLine - 5 ≤ i ∧ i ≤ cursorLine + 5)).map (fun i => lines.getD i "")
  String.intercalate "\n"
    (["Language: " ++ language,
      "Framework: " ++ framework,
      "Context:"]
      ++ window
      ++ ["Cursor at line " ++ toString cursorLine ++ ", column " ++ toString cursorColumn,
          "Current line: " ++ lines.getD cursorLine ""])

/-- The code context with the window amended to what the code produces: five
lines before the cursor line and four after it (the window's end index
`cursorLine + 5` is exclusive), clamped to file bounds. -/
def codeContextAmendedC3 (fileContent : String) (cursorLine cursorColumn : Nat)
    (language framework : String) : String :=
  let lines := jsSplitNl fileContent
  let window := ((List.range lines.length).filter
      (fun i => cursorLine - 5 ≤ i ∧ i < cursorLine + 5)).map (fun i => lines.getD i "")
  String.intercalate "\n"
    (["Language: " ++ language,
      "Framework: " ++ framework,
      "Context:"]
      ++ window
      ++ ["Cursor at line " ++ toString cursorLine ++ ", column " ++ toString cursorColumn,
          "Current line: " ++ lines.getD cursorLine ""])

/-- The cache id as the specification describes it: the current time
combined with the hash of the lines within distance 2 of the cursor line,
concatenated with the suggestion-type tag. -/
def cacheIdClaimC6 (now : Int) (input : CodeContextInput) : String :=
  let lines := jsSplitNl input.fileContent
  let near := ((List.range lines.length).filter
      (fun i => input.cursorLine - 2 ≤ i ∧ i ≤ input.cursorLine + 2)).map
    (fun i => lines.getD i "")
  toString now ++ "_" ++ simpleHash (String.intercalate "\n" near ++ input.suggestionType)

/-- The cache id with the hashed slice amended to what the code hashes: the
characters of `fileContent` at character positions from
`max (cursorLine - 2) 0` up to (excluding) `cursorLine + 3`, concatenated
with the suggestion-type tag, prefixed by the current time. -/
def cacheIdAmendedC6 (now : Int) (input : CodeContextInput) : String :=
  let chars := ((List.range input.fileContent.data.length).filter
      (fun i => input.cursorLine - 2 ≤ i ∧ i < input.cursorLine + 3)).map
    (fun i => input.fileContent.data.getD i ' ')
  toString now ++ "_" ++ simpleHash (String.mk chars ++ input.suggestionType)

/-- A store with 1001 keys of which 451 hold readable entries (pairwise
distinct hit counts) and 550 hold corrupted values. -/
def storeC2 : Store :=
  (List.range 1001).map (fun i =>
    (RKey.mk "L" "F" (toString i),
      if i < 451 then
        StoredVal.mk 604800
          (some (CacheEntry.mk (toString i) "" [] "" "L" "F" (Int.ofNat i) (Int.ofNat i)))
      else StoredVal.mk 604800 none))

/-! ## Failure model for the caching path -/

/-- `getRedisClient`, as a function of store availability: the connection
either materializes or the call throws. -/
def getRedisClient (available : Bool) : Except Unit Unit :=
  if available then Except.ok () else Except.error ()

/-- `getCachedSuggestion` with its enclosing try/catch
(semantic-cache.ts:32 and 109-112): any store failure lands in the catch
handler, which returns no result and leaves the store as it was. -/
noncomputable def getCachedSuggestionGuarded (available : Bool)
    (embed : String → List ℝ) (now : Int) (input : CodeContextInput)
    (store : Store) : Option String × Store :=
  match getRedisClient available with
  | Except.error _ => (none, store)
  | Except.ok _ => getCachedSuggestion embed now input store

/-- `cacheSuggestion` with its enclosing try/catch
(semantic-cache.ts:116 and 161-163): a failed write is logged and dropped,
the function returns normally and the store is unchanged. -/
noncomputable def cacheSuggestionGuarded (available : Bool)
    (embed : String → List ℝ) (now : Int) (input : CodeContextInput)
    (suggestion : String) (store : Store) : Store :=
  match getRedisClient available with
  | Except.error _ => store
  | Except.ok _ => cacheSuggestion embed now input suggestion store

/-! ## Concrete fixtures used by witnesses and counterexamples -/

/-- A stored entry whose embedding is the one-dimensional vector `[1]`. -/
noncomputable def entryW : CacheEntry :=
  CacheEntry.mk "e1" "ctx" [1] "sugg" "L" "F" 0 2

/-- The storage key of `entryW`. -/
def keyW : RKey := RKey.mk "L" "F" "e1"

/-- A one-entry store holding `entryW`. -/
noncomputable def storeW : Store := [(keyW, StoredVal.mk 604800 (some entryW))]

/-- A lookup input in the namespace of `entryW`. -/
def inputW : CodeContextInput := CodeContextInput.mk "f" 0 0 "L" "F" "t"

/-- An embedding oracle that maps every context to `[1]`. -/
noncomputable def embedW : String → List ℝ := fun _ => [1]

/-! ## Lemmas about the similarity engine -/

lemma sumSquares_nonneg (e : List ℝ) : 0 ≤ sumSquares e := by
  apply List.sum_nonneg
  intro x hx
  simp only [List.mem_map] at hx
  obtain ⟨y, _, rfl⟩ := hx
  exact mul_self_nonneg y

lemma dotProduct_eq_sum_range (a : List ℝ) : ∀ b : List ℝ, a.length = b.length →
    dotProduct a b = ∑ i in Finset.range a.length, a.getD i 0 * b.getD i 0 := by
  induction a with
  | nil => intro b h; simp [dotProduct]
  | cons x as ih =>
    intro b h
    cases b with
    | nil => simp at h
    | cons y bs =>
      simp only [List.length_cons] at h
      have h2 : as.length = bs.length := by omega
      simp only [dotProduct, List.zipWith_cons_cons, List.sum_cons, List.length_cons]
      rw [Finset.sum_range_succ']
      simp only [List.getD_cons_succ, List.getD_cons_zero]
      have := ih bs h2
      simp only [dotProduct] at this
      rw [this]
      ring

lemma sumSquares_eq_dotProduct (a : List ℝ) : sumSquares a = dotProduct a a := by
  simp [sumSquares, dotProduct, List.zipWith_same]

lemma dotProduct_sq_le (a b : List ℝ) (h : a.length = b.length) :
    dotProduct a b ^ 2 ≤ sumSquares a * sumSquares b := by
  rw [dotProduct_eq_sum_range a b h, sumSquares_eq_dotProduct, sumSquares_eq_dotProduct,
    dotProduct_eq_sum_range a a rfl, dotProduct_eq_sum_range b b rfl, ← h]
  have := Finset.sum_mul_sq_le_sq_mul_sq (Finset.range a.length)
    (fun i => a.getD i 0) (fun i => b.getD i 0)
  simpa [pow_two] using this

lemma dotProduct_comm (a b : List ℝ) : dotProduct a b = dotProduct b a := by
  simp only [dotProduct]
  rw [List.zipWith_comm_of_comm]
  intro x y
  exact mul_comm x y

/-- Claim C5: `calculateSimilarity` always lands in `[-1, 1]`, is symmetric,
equals the cosine quotient when the dimensions match and both magnitudes are
nonzero, and returns `0` (rather than failing) on a dimension mismatch or a
zero magnitude. -/
theorem calculateSimilarity_spec (a b : List ℝ) :
    (-1 ≤ calculateSimilarity a b ∧ calculateSimilarity a b ≤ 1) ∧
    calculateSimilarity a b = calculateSimilarity b a ∧
    (a.length ≠ b.length → calculateSimilarity a b = 0) ∧
    (Real.sqrt (sumSquares a) = 0 ∨ Real.sqrt (sumSquares b) = 0 →
      calculateSimilarity a b = 0) ∧
    (a.length = b.length → Real.sqrt (sumSquares a) ≠ 0 → Real.sqrt (sumSquares b) ≠ 0 →
      calculateSimilarity a b =
        dotProduct a b / (Real.sqrt (sumSquares a) * Real.sqrt (sumSquares b))) := by
  have hmag : ∀ x y : List ℝ, 0 ≤ Real.sqrt (sumSquares x) * Real.sqrt (sumSquares y) :=
    fun x y => mul_nonneg (Real.sqrt_nonneg _) (Real.sqrt_nonneg _)
  have habs : ∀ x y : List ℝ, x.length = y.length →
      |dotProduct x y| ≤ Real.sqrt (sumSquares x) * Real.sqrt (sumSquares y) := by
    intro x y hxy
    have h1 : |dotProduct x y| = Real.sqrt (dotProduct x y ^ 2) :=
      (Real.sqrt_sq_eq_abs _).symm
    rw [h1, ← Real.sqrt_mul (sumSquares_nonneg x)]
    exact Real.sqrt_le_sqrt (dotProduct_sq_le x y hxy)
  have hbound : ∀ x y : List ℝ, -1 ≤ calculateSimilarity x y ∧ calculateSimilarity x y ≤ 1 := by
    intro x y
    unfold calculateSimilarity
    by_cases hlen : x.length ≠ y.length
    · rw [if_pos hlen]; norm_num
    · rw [if_neg hlen]
      push_neg at hlen
      simp only
      by_cases hm : Real.sqrt (sumSquares x) * Real.sqrt (sumSquares y) = 0
      · rw [if_pos hm]; norm_num
      · rw [if_neg hm]
        have hpos : 0 < Real.sqrt (sumSquares x) * Real.sqrt (sumSquares y) :=
          lt_of_le_of_ne (hmag x y) (Ne.symm hm)
        have habs1 : |dotProduct x y / (Real.sqrt (sumSquares x) * Real.sqrt (sumSquares y))|
            ≤ 1 := by
          rw [abs_div, abs_of_pos hpos]
          exact (div_le_one hpos).mpr (habs x y hlen)
        exact abs_le.mp habs1
  refine ⟨hbound a b, ?_, ?_, ?_, ?_⟩
  · unfold calculateSimilarity
    rw [dotProduct_comm b a, mul_comm (Real.sqrt (sumSquares b)) (Real.sqrt (sumSquares a))]
    split_ifs <;> first | rfl | omega
  · intro hlen
    unfold calculateSimilarity
    rw [if_pos hlen]
  · intro hz
    unfold calculateSimilarity
    by_cases hlen : a.length ≠ b.length
    · rw [if_pos hlen]
    · rw [if_neg hlen]
      simp only
      have hm : Real.sqrt (sumSquares a) * Real.sqrt (sumSquares b) = 0 := by
        rcases hz with hz | hz <;> rw [hz] <;> ring
      rw [if_pos hm]
  · intro hlen h1 h2
    unfold calculateSimilarity
    rw [if_neg (by omega)]
    simp only
    rw [if_neg (mul_ne_zero h1 h2)]

/-- Witness for C5 at a concrete input: a dimension mismatch yields `0`. -/
theorem calculateSimilarity_spec_witness :
    calculateSimilarity [(1 : ℝ)] [1, 2] = 0 :=
  (calculateSimilarity_spec [(1 : ℝ)] [1, 2]).2.2.1 (by simp)

/-! ## Lemmas about the best-match scan -/

@[simp] lemma readableIn_nil : readableIn ([] : List (RKey × StoredVal)) = [] := rfl

@[simp] lemma readableIn_cons_none (k : RKey) (t : Int) (l : List (RKey × StoredVal)) :
    readableIn ((k, StoredVal.mk t none) :: l) = readableIn l := by
  simp [readableIn]

@[simp] lemma readableIn_cons_some (k : RKey) (t : Int) (e : CacheEntry)
    (l : List (RKey × StoredVal)) :
    readableIn ((k, StoredVal.mk t (some e)) :: l) = (k, e) :: readableIn l := by
  simp [readableIn]

open Classical in
lemma scanEntries_inv (q : List ℝ) :
    ∀ (l : List (RKey × StoredVal)) (best : Option (RKey × ℝ × CacheEntry)),
    (∀ k s e, best = some (k, s, e) →
      s = calculateSimilarity q e.embedding ∧ SIMILARITY_THRESHOLD < s) →
    ((∀ k s e, scanEntries q l best = some (k, s, e) →
        s = calculateSimilarity q e.embedding ∧ SIMILARITY_THRESHOLD < s ∧
        ((k, e) ∈ readableIn l ∨ best = some (k, s, e))) ∧
     (∀ ke ∈ readableIn l,
        calculateSimilarity q ke.2.embedding ≤ SIMILARITY_THRESHOLD ∨
        ∃ k s e, scanEntries q l best = some (k, s, e) ∧
          calculateSimilarity q ke.2.embedding ≤ s) ∧
     (∀ k s e, best = some (k, s, e) →
        ∃ k2 s2 e2, scanEntries q l best = some (k2, s2, e2) ∧ s ≤ s2) ∧
     (scanEntries q l best = none → best = none)) := by
  intro l
  induction l with
  | nil =>
    intro best hb
    refine ⟨?_, ?_, ?_, ?_⟩
    · intro k s e h
      simp only [scanEntries] at h
      exact ⟨(hb k s e h).1, (hb k s e h).2, Or.inr h⟩
    · intro ke hke
      simp at hke
    · intro k s e h
      exact ⟨k, s, e, by simpa [scanEntries] using h, le_refl s⟩
    · intro h
      simpa [scanEntries] using h
  | cons kv rest ih =>
    intro best hb
    obtain ⟨k0, t0, d0⟩ := kv
    cases d0 with
    | none =>
      have hstep : scanEntries q ((k0, StoredVal.mk t0 none) :: rest) best =
          scanEntries q rest best := by
        simp only [scanEntries]
      obtain ⟨Q1, Q2, Q3, Q4⟩ := ih best hb
      refine ⟨?_, ?_, ?_, ?_⟩
      · intro k s e h
        rw [hstep] at h
        obtain ⟨h1, h2, h3⟩ := Q1 k s e h
        exact ⟨h1, h2, by simpa using h3⟩
      · intro ke hke
        rw [readableIn_cons_none] at hke
        rcases Q2 ke hke with h1 | ⟨k, s, e, heq, hle⟩
        · exact Or.inl h1
        · exact Or.inr ⟨k, s, e, by rwa [hstep], hle⟩
      · intro k s e h
        obtain ⟨k2, s2, e2, heq, hle⟩ := Q3 k s e h
        exact ⟨k2, s2, e2, by rwa [hstep], hle⟩
      · intro h
        rw [hstep] at h
        exact Q4 h
    | some entry =>
      have hstep : scanEntries q ((k0, StoredVal.mk t0 (some entry)) :: rest) best =
          scanEntries q rest
            (if SIMILARITY_THRESHOLD < calculateSimilarity q entry.embedding ∧
                betterThan (calculateSimilarity q entry.embedding) best then
              some (k0, calculateSimilarity q entry.embedding, entry)
            else best) := by
        simp only [scanEntries]
      by_cases hc : SIMILARITY_THRESHOLD < calculateSimilarity q entry.embedding ∧
          betterThan (calculateSimilarity q entry.embedding) best
      · rw [if_pos hc] at hstep
        have hb2 : ∀ k s e,
            (some (k0, calculateSimilarity q entry.embedding, entry) :
              Option (RKey × ℝ × CacheEntry)) = some (k, s, e) →
            s = calculateSimilarity q e.embedding ∧ SIMILARITY_THRESHOLD < s := by
          intro k s e h
          simp only [Option.some.injEq, Prod.mk.injEq] at h
          obtain ⟨rfl, rfl, rfl⟩ := h
          exact ⟨rfl, hc.1⟩
        obtain ⟨Q1, Q2, Q3, Q4⟩ := ih _ hb2
        refine ⟨?_, ?_, ?_, ?_⟩
        · intro k s e h
          rw [hstep] at h
          obtain ⟨h1, h2, h3⟩ := Q1 k s e h
          refine ⟨h1, h2, Or.inl ?_⟩
          rcases h3 with h3 | h3
          · rw [readableIn_cons_some]
            exact List.mem_cons_of_mem _ h3
          · simp only [Option.some.injEq, Prod.mk.injEq] at h3
            obtain ⟨rfl, rfl, rfl⟩ := h3
            rw [readableIn_cons_some]
            exact List.mem_cons_self _ _
        · intro ke hke
          rw [readableIn_cons_some] at hke
          rcases List.mem_cons.mp hke with rfl | hke2
          · obtain ⟨k2, s2, e2, heq, hle⟩ :=
              Q3 k0 (calculateSimilarity q entry.embedding) entry rfl
            exact Or.inr ⟨k2, s2, e2, by rwa [hstep], hle⟩
          · rcases Q2 ke hke2 with h1 | ⟨k, s, e, heq, hle⟩
            · exact Or.inl h1
            · exact Or.inr ⟨k, s, e, by rwa [hstep], hle⟩
        · intro k s e h
          have hlt : s < calculateSimilarity q entry.embedding := by
            have hm := hc.2
            rw [h] at hm
            exact hm
          obtain ⟨k2, s2, e2, heq, hle⟩ :=
            Q3 k0 (calculateSimilarity q entry.embedding) entry rfl
          exact ⟨k2, s2, e2, by rwa [hstep], le_trans (le_of_lt hlt) hle⟩
        · intro h
          rw [hstep] at h
          exact absurd (Q4 h) (by simp)
      · rw [if_neg hc] at hstep
        obtain ⟨Q1, Q2, Q3, Q4⟩ := ih best hb
        refine ⟨?_, ?_, ?_, ?_⟩
        · intro k s e h
          rw [hstep] at h
          obtain ⟨h1, h2, h3⟩ := Q1 k s e h
          refine ⟨h1, h2, ?_⟩
          rcases h3 with h3 | h3
          · refine Or.inl ?_
            rw [readableIn_cons_some]
            exact List.mem_cons_of_mem _ h3
          · exact Or.inr h3
        · intro ke hke
          rw [readableIn_cons_some] at hke
          rcases List.mem_cons.mp hke with rfl | hke2
          · by_cases hs0 : calculateSimilarity q entry.embedding ≤ SIMILARITY_THRESHOLD
            · exact Or.inl hs0
            · push_neg at hs0
              cases best with
              | none => exact absurd ⟨hs0, trivial⟩ hc
              | some b =>
                obtain ⟨bk, bs, be⟩ := b
                have hble : calculateSimilarity q entry.embedding ≤ bs := by
                  by_contra hlt
                  push_neg at hlt
                  exact hc ⟨hs0, hlt⟩
                obtain ⟨k2, s2, e2, heq, hle⟩ := Q3 bk bs be rfl
                exact Or.inr ⟨k2, s2, e2, by rwa [hstep], le_trans hble hle⟩
          · rcases Q2 ke hke2 with h1 | ⟨k, s, e, heq, hle⟩
            · exact Or.inl h1
            · exact Or.inr ⟨k, s, e, by rwa [hstep], hle⟩
        · intro k s e h
          obtain ⟨k2, s2, e2, heq, hle⟩ := Q3 k s e h
          exact ⟨k2, s2, e2, by rwa [hstep], hle⟩
        · intro h
          rw [hstep] at h
          exact Q4 h

lemma scanEntries_none_iff (q : List ℝ) (l : List (RKey × StoredVal)) :
    scanEntries q l none = none ↔
      ∀ ke ∈ readableIn l,
        calculateSimilarity q ke.2.embedding ≤ SIMILARITY_THRESHOLD := by
  obtain ⟨Q1, Q2, Q3, Q4⟩ := scanEntries_inv q l none (by intro k s e h; cases h)
  constructor
  · intro h ke hke
    rcases Q2 ke hke with h1 | ⟨k, s, e, heq, _⟩
    · exact h1
    · rw [h] at heq
      cases heq
  · intro hall
    cases hscan : scanEntries q l none with
    | none => rfl
    | some v =>
      obtain ⟨k, s, e⟩ := v
      obtain ⟨hs, hθ, hmem⟩ := Q1 k s e hscan
      rcases hmem with hmem | hmem
      · have hle := hall (k, e) hmem
        rw [← hs] at hle
        exact absurd hθ (not_lt.mpr hle)
      · cases hmem

lemma scanEntries_some_spec (q : List ℝ) (l : List (RKey × StoredVal))
    (k : RKey) (s : ℝ) (e : CacheEntry) (h : scanEntries q l none = some (k, s, e)) :
    (k, e) ∈ readableIn l ∧ s = calculateSimilarity q e.embedding ∧
    SIMILARITY_THRESHOLD < s ∧
    ∀ ke ∈ readableIn l, calculateSimilarity q ke.2.embedding ≤ s := by
  obtain ⟨Q1, Q2, Q3, Q4⟩ := scanEntries_inv q l none (by intro k s e h; cases h)
  obtain ⟨hs, hθ, hmem⟩ := Q1 k s e h
  have hmem2 : (k, e) ∈ readableIn l := by
    rcases hmem with hmem | hmem
    · exact hmem
    · cases hmem
  refine ⟨hmem2, hs, hθ, ?_⟩
  intro ke hke
  rcases Q2 ke hke with h1 | ⟨k2, s2, e2, heq, hle⟩
  · exact le_trans h1 (le_of_lt hθ)
  · rw [h] at heq
    simp only [Option.some.injEq, Prod.mk.injEq] at heq
    obtain ⟨-, rfl, -⟩ := heq
    exact hle

lemma getCached_eq_none_of_all_le (embed : String → List ℝ) (now : Int)
    (input : CodeContextInput) (store : Store)
    (hall : ∀ ke ∈ readableIn (nsEntries input store),
      calculateSimilarity (embed (buildCacheContext input)) ke.2.embedding ≤
        SIMILARITY_THRESHOLD) :
    getCachedSuggestion embed now input store = (none, store) := by
  unfold getCachedSuggestion
  by_cases hlen : (nsEntries input store).length = 0
  · rw [if_pos hlen]
  · rw [if_neg hlen]
    have hnone : scanEntries (embed (buildCacheContext input))
        (nsEntries input store) none = none :=
      (scanEntries_none_iff _ (nsEntries input store)).mpr hall
    rw [hnone]

lemma getCached_eq_some_of_scan (embed : String → List ℝ) (now : Int)
    (input : CodeContextInput) (store : Store) (k : RKey) (s : ℝ) (e : CacheEntry)
    (hscan : scanEntries (embed (buildCacheContext input))
      (nsEntries input store) none = some (k, s, e)) :
    getCachedSuggestion embed now input store =
      (some e.suggestion,
        setEx store k CACHE_TTL
          { e with hitCount := e.hitCount + 1, timestamp := now }) := by
  obtain ⟨hmem, -, -, -⟩ := scanEntries_some_spec _ _ k s e hscan
  unfold getCachedSuggestion
  have hlen : ¬ (nsEntries input store).length = 0 := by
    intro h0
    rw [List.length_eq_zero] at h0
    rw [h0] at hmem
    simp at hmem
  rw [if_neg hlen, hscan]

/-! ## Claims about the cache lookup -/

/-- Claim C1: a lookup selects, among the readable entries of the exact
language/framework namespace, an entry of maximal similarity whose
similarity strictly exceeds the 0.85 threshold; it returns that entry's
suggestion and persists it with `hitCount` incremented by one and the
timestamp set to now.  When no entry strictly exceeds the threshold
(including equality with the threshold and the empty-namespace case) the
lookup returns no result and leaves the store unchanged. -/
theorem getCachedSuggestion_spec (embed : String → List ℝ) (now : Int)
    (input : CodeContextInput) (store : Store) :
    ((∀ ke ∈ readableIn (nsEntries input store),
        calculateSimilarity (embed (buildCacheContext input)) ke.2.embedding ≤
          SIMILARITY_THRESHOLD) →
      getCachedSuggestion embed now input store = (none, store)) ∧
    ((∃ ke ∈ readableIn (nsEntries input store),
        SIMILARITY_THRESHOLD <
          calculateSimilarity (embed (buildCacheContext input)) ke.2.embedding) →
      ∃ k e, (k, e) ∈ readableIn (nsEntries input store) ∧
        SIMILARITY_THRESHOLD <
          calculateSimilarity (embed (buildCacheContext input)) e.embedding ∧
        (∀ ke ∈ readableIn (nsEntries input store),
          calculateSimilarity (embed (buildCacheContext input)) ke.2.embedding ≤
            calculateSimilarity (embed (buildCacheContext input)) e.embedding) ∧
        getCachedSuggestion embed now input store =
          (some e.suggestion,
            setEx store k CACHE_TTL
              { e with hitCount := e.hitCount + 1, timestamp := now })) := by
  constructor
  · exact getCached_eq_none_of_all_le embed now input store
  · intro ⟨ke0, hke0, hgt⟩
    cases hscan : scanEntries (embed (buildCacheContext input))
        (nsEntries input store) none with
    | none =>
      have hall := (scanEntries_none_iff _ (nsEntries input store)).mp hscan
      exact absurd hgt (not_lt.mpr (hall ke0 hke0))
    | some v =>
      obtain ⟨k, s, e⟩ := v
      obtain ⟨hmem, hs, hθ, hmax⟩ := scanEntries_some_spec _ _ k s e hscan
      exact ⟨k, e, hmem, hs ▸ hθ, fun ke hke => hs ▸ hmax ke hke,
        getCached_eq_some_of_scan embed now input store k s e hscan⟩

/-- Witness for C1: on an empty store every lookup misses. -/
theorem getCachedSuggestion_spec_witness :
    getCachedSuggestion (fun _ => [1]) 0
      (CodeContextInput.mk "f" 0 0 "L" "F" "t") [] = (none, []) :=
  (getCachedSuggestion_spec (fun _ => [1]) 0
    (CodeContextInput.mk "f" 0 0 "L" "F" "t") []).1
    (by intro ke hke; simp [readableIn, nsEntries] at hke)

/-- Claim C4: when generation of an embedding fails, the sentinel is the
zero vector of length 384; its similarity with every vector is `0`; hence a
lookup whose query embedding is the failure sentinel always misses and never
mutates the store. -/
theorem zero_embedding_forces_miss :
    generateEmbedding none = List.replicate 384 0 ∧
    (∀ b : List ℝ, calculateSimilarity (generateEmbedding none) b = 0) ∧
    (∀ (now : Int) (input : CodeContextInput) (store : Store),
      getCachedSuggestion (fun _ => generateEmbedding none) now input store =
        (none, store)) := by
  have hzq : sumSquares (List.replicate 384 (0 : ℝ)) = 0 := by
    rw [sumSquares, List.map_replicate, List.sum_replicate]
    norm_num
  have hsim : ∀ b : List ℝ, calculateSimilarity (generateEmbedding none) b = 0 := by
    intro b
    show calculateSimilarity (List.replicate 384 0) b = 0
    unfold calculateSimilarity
    by_cases hlen : (List.replicate 384 (0 : ℝ)).length ≠ b.length
    · rw [if_pos hlen]
    · rw [if_neg hlen]
      simp only
      rw [if_pos (by rw [hzq, Real.sqrt_zero, zero_mul])]
  refine ⟨rfl, hsim, ?_⟩
  intro now input store
  apply getCached_eq_none_of_all_le
  intro ke hke
  rw [hsim ke.2.embedding]
  unfold SIMILARITY_THRESHOLD
  norm_num

/-- Claim C9: a confirmed hit re-persists the matched entry with the full
7-day TTL — the store-level expiration restarts at `CACHE_TTL` seconds from
the hit — and every field other than `hitCount` (incremented) and
`timestamp` (set to the hit time) is written back unchanged. -/
theorem cacheHit_persists_full_ttl (embed : String → List ℝ) (now : Int)
    (input : CodeContextInput) (store : Store) (s : String) (store1 : Store)
    (h : getCachedSuggestion embed now input store = (some s, store1)) :
    CACHE_TTL = 7 * 24 * 60 * 60 ∧
    ∃ k e, (k, e) ∈ readableIn (nsEntries input store) ∧ s = e.suggestion ∧
      store1 = setEx store k CACHE_TTL
        { e with hitCount := e.hitCount + 1, timestamp := now } := by
  refine ⟨rfl, ?_⟩
  unfold getCachedSuggestion at h
  by_cases hlen : (nsEntries input store).length = 0
  · rw [if_pos hlen] at h
    simp at h
  · rw [if_neg hlen] at h
    cases hscan : scanEntries (embed (buildCacheContext input))
        (nsEntries input store) none with
    | none =>
      rw [hscan] at h
      simp at h
    | some v =>
      obtain ⟨k, s0, e⟩ := v
      rw [hscan] at h
      simp only [Prod.mk.injEq, Option.some.injEq] at h
      obtain ⟨rfl, rfl⟩ := h
      obtain ⟨hmem, -, -, -⟩ := scanEntries_some_spec _ _ k s0 e hscan
      exact ⟨k, e, hmem, rfl, rfl⟩

/-- Witness for C9: a concrete hit against `storeW` returns the stored
suggestion and re-persists the entry with the full TTL. -/
theorem cacheHit_persists_full_ttl_witness :
    CACHE_TTL = 7 * 24 * 60 * 60 ∧
    ∃ k e, (k, e) ∈ readableIn (nsEntries inputW storeW) ∧ "sugg" = e.suggestion ∧
      setEx storeW keyW CACHE_TTL
          { entryW with hitCount := entryW.hitCount + 1, timestamp := 5 } =
        setEx storeW k CACHE_TTL
          { e with hitCount := e.hitCount + 1, timestamp := 5 } := by
  have hsim1 : calculateSimilarity [(1 : ℝ)] [1] = 1 := by
    unfold calculateSimilarity
    rw [if_neg (by simp)]
    simp only [dotProduct, sumSquares, List.zipWith_cons_cons, List.zipWith_nil_right,
      List.map_cons, List.map_nil, List.sum_cons, List.sum_nil, mul_one, one_mul,
      add_zero]
    rw [Real.sqrt_one]
    norm_num
  have hcond : SIMILARITY_THRESHOLD < calculateSimilarity [(1 : ℝ)] entryW.embedding ∧
      betterThan (calculateSimilarity [(1 : ℝ)] entryW.embedding) none := by
    refine ⟨?_, trivial⟩
    show SIMILARITY_THRESHOLD < calculateSimilarity [(1 : ℝ)] [1]
    rw [hsim1]
    unfold SIMILARITY_THRESHOLD
    norm_num
  have hscanW : scanEntries (embedW (buildCacheContext inputW)) (nsEntries inputW storeW)
      none = some (keyW, calculateSimilarity [(1 : ℝ)] entryW.embedding, entryW) := by
    show scanEntries [(1 : ℝ)] [(keyW, StoredVal.mk 604800 (some entryW))] none = _
    simp only [scanEntries]
    rw [if_pos hcond]
  have hW : getCachedSuggestion embedW 5 inputW storeW =
      (some entryW.suggestion,
        setEx storeW keyW CACHE_TTL
          { entryW with hitCount := entryW.hitCount + 1, timestamp := 5 }) :=
    getCached_eq_some_of_scan embedW 5 inputW storeW keyW _ entryW hscanW
  obtain ⟨h1, k, e, hmem, hs, hst⟩ :=
    cacheHit_persists_full_ttl embedW 5 inputW storeW entryW.suggestion _ hW
  exact ⟨h1, k, e, hmem, hs, hst⟩

/-- Claim C10: chat-category requests build the cache context with an empty
conversation history, in the lookup path and in the write path alike, so two
chat requests with the same message and mode produce the same cache input,
the same context, and the same lookup and write behavior on any fixed store,
whatever their histories are. -/
theorem chat_cache_ignores_history (message : String) (mode : Option String)
    (h1 h2 : List ChatTurn) (embed : String → List ℝ) (now : Int) (store : Store)
    (suggestion : String) :
    buildCacheContext (chatCacheInput message h1 mode) =
      createChatContext message (jsOrDefault mode "chat") [] ∧
    chatCacheInput message h1 mode = chatCacheInput message h2 mode ∧
    getCachedSuggestion embed now (chatCacheInput message h1 mode) store =
      getCachedSuggestion embed now (chatCacheInput message h2 mode) store ∧
    cacheSuggestion embed now (chatCacheInput message h1 mode) suggestion store =
      cacheSuggestion embed now (chatCacheInput message h2 mode) suggestion store := by
  refine ⟨?_, rfl, rfl, rfl⟩
  unfold buildCacheContext chatCacheInput
  rw [if_pos rfl]

/-- Claim C7: failures in the caching path never propagate.  With the store
unavailable, the guarded lookup reports a miss with the store unchanged and
the guarded write returns normally, dropping the write; inside the scan a
corrupted entry is skipped rather than aborting the lookup. -/
theorem cache_failures_never_propagate (embed : String → List ℝ) (now : Int)
    (input : CodeContextInput) (suggestion : String) (store : Store) :
    getCachedSuggestionGuarded false embed now input store = (none, store) ∧
    cacheSuggestionGuarded false embed now input suggestion store = store ∧
    getCachedSuggestionGuarded true embed now input store =
      getCachedSuggestion embed now input store ∧
    cacheSuggestionGuarded true embed now input suggestion store =
      cacheSuggestion embed now input suggestion store ∧
    (∀ (q : List ℝ) (k : RKey) (t : Int) (l : List (RKey × StoredVal))
      (best : Option (RKey × ℝ × CacheEntry)),
      scanEntries q ((k, StoredVal.mk t none) :: l) best = scanEntries q l best) := by
  exact ⟨rfl, rfl, rfl, rfl, fun q k t l best => by simp only [scanEntries]⟩

/-- Claim C8: a code-suggestion request with a missing `fileContent`, a
negative `cursorLine`, a negative `cursorColumn`, or a missing
`suggestionType` is answered with a 400 response carrying a description, and
the handler performs no cache lookup, no cache write, and no generation
work. -/
theorem invalid_code_request_rejected (detect : String → Option String → String × String)
    (embed : String → List ℝ) (now : Int) (genResult : Option String)
    (b : CodeRequestBody) (store : Store)
    (h : b.fileContent = none ∨ (∃ n, b.cursorLine = some n ∧ n < 0) ∨
      (∃ n, b.cursorColumn = some n ∧ n < 0) ∨ b.suggestionType = none) :
    codeStreamPOST detect embed now genResult b store =
      (PostResponse.mk 400 "Invalid input parameters", [], store) := by
  have hrej : codePostRejects b = true := by
    unfold codePostRejects jsFalsyStr jsNegative
    rcases h with h | ⟨n, h, hn⟩ | ⟨n, h, hn⟩ | h <;> rw [h] <;> simp_all
  unfold codeStreamPOST
  rw [if_pos hrej]

/-- Witness for C8: a request without `fileContent` is rejected without
touching the store. -/
theorem invalid_code_request_rejected_witness :
    codeStreamPOST (fun _ _ => ("TypeScript", "React")) (fun _ => [1]) 0 none
      (CodeRequestBody.mk none (some 0) (some 0) (some "completion") none) [] =
      (PostResponse.mk 400 "Invalid input parameters", [], []) :=
  invalid_code_request_rejected _ _ _ _ _ _ (Or.inl rfl)

/-! ## Windowing lemmas -/

lemma take_min_length {α : Type} (l : List α) (n : Nat) :
    l.take (min l.length n) = l.take n := by
  rcases le_total l.length n with h | h
  · rw [min_eq_left h, List.take_length, List.take_of_length_le h]
  · rw [min_eq_right h]

lemma filter_range_map_getD {α : Type} (l : List α) (d : α) (s e : Nat) :
    ((List.range l.length).filter (fun i => decide (s ≤ i ∧ i < e))).map
        (fun i => l.getD i d) = (l.take e).drop s := by
  induction l using List.reverseRecOn with
  | nil => simp
  | append_singleton l a ih =>
    rw [List.length_append, List.length_singleton, List.range_succ, List.filter_append,
      List.map_append, List.take_append_eq_append_take, List.drop_append_eq_append_drop]
    have hpart1 : ((List.range l.length).filter (fun i => decide (s ≤ i ∧ i < e))).map
        (fun i => (l ++ [a]).getD i d) = (l.take e).drop s := by
      rw [← ih]
      apply List.map_congr_left
      intro i hi
      have hilen : i < l.length := List.mem_range.mp (List.mem_filter.mp hi).1
      exact List.getD_append l [a] d i hilen
    rw [hpart1]
    congr 1
    by_cases he : e ≤ l.length
    · have h1 : e - l.length = 0 := by omega
      have h2 : ([l.length].filter (fun i => decide (s ≤ i ∧ i < e))) = [] := by
        simp only [List.filter_eq_nil_iff]
        intro i hi
        simp only [List.mem_singleton] at hi
        subst hi
        simp only [decide_eq_true_eq, not_and, not_lt]
        omega
      rw [h1, h2, List.take_zero, List.map_nil, List.drop_eq_nil_of_le (by simp)]
    · push_neg at he
      have htake : [a].take (e - l.length) = [a] :=
        List.take_of_length_le (by simp; omega)
      have hlen2 : (l.take e).length = l.length := by
        rw [List.length_take]
        omega
      rw [htake, hlen2]
      by_cases hs : s ≤ l.length
      · have h2 : ([l.length].filter (fun i => decide (s ≤ i ∧ i < e))) = [l.length] := by
          simp only [List.filter_eq_self]
          intro i hi
          simp only [List.mem_singleton] at hi
          subst hi
          simp only [decide_eq_true_eq]
          omega
        rw [h2, List.map_singleton,
          List.getD_append_right l [a] d l.length (le_refl _), Nat.sub_self]
        have hdrop : [a].drop (s - l.length) = [a] := by
          have : s - l.length = 0 := by omega
          rw [this, List.drop_zero]
        rw [hdrop]
        rfl
      · push_neg at hs
        have h2 : ([l.length].filter (fun i => decide (s ≤ i ∧ i < e))) = [] := by
          simp only [List.filter_eq_nil_iff]
          intro i hi
          simp only [List.mem_singleton] at hi
          subst hi
          simp only [decide_eq_true_eq, not_and, not_lt]
          omega
        rw [h2, List.map_nil, List.drop_eq_nil_of_le (by simp; omega)]

/-! ## Claims about the context builder (C3) -/

/-- Counterexample to claim C3 as stated: with twelve lines and the cursor
on line 5 (in bounds), the context built by the code differs from the
claimed one, because the code's window stops one line short of the claimed
"5 lines after". -/
theorem createCodeContext_claim_counterexample :
    5 < (jsSplitNl "l0\nl1\nl2\nl3\nl4\nl5\nl6\nl7\nl8\nl9\nl10\nl11").length ∧
    createCodeContext "l0\nl1\nl2\nl3\nl4\nl5\nl6\nl7\nl8\nl9\nl10\nl11" 5 0 "TS" "React" ≠
      codeContextClaimC3 "l0\nl1\nl2\nl3\nl4\nl5\nl6\nl7\nl8\nl9\nl10\nl11" 5 0 "TS" "React" :=
  ⟨by decide, by decide⟩

/-- Claim C3 as amended: for every in-bounds cursor the code context is the
newline join of the language tag, the framework tag, the literal header,
the window of five lines before through four lines after the cursor line
(clamped to file bounds), the cursor-position line and the raw current
line. -/
theorem createCodeContext_amended (fileContent : String)
    (cursorLine cursorColumn : Nat) (language framework : String)
    (hline : cursorLine < (jsSplitNl fileContent).length)
    (hcol : cursorColumn ≤ ((jsSplitNl fileContent).getD cursorLine "").length) :
    createCodeContext fileContent cursorLine cursorColumn language framework =
      codeContextAmendedC3 fileContent cursorLine cursorColumn language framework := by
  simp only [createCodeContext, codeContextAmendedC3]
  rw [filter_range_map_getD, take_min_length]

/-- Witness for the amended C3 at a concrete in-bounds input. -/
theorem createCodeContext_amended_witness :
    createCodeContext "a\nb" 0 0 "L" "F" = codeContextAmendedC3 "a\nb" 0 0 "L" "F" :=
  createCodeContext_amended "a\nb" 0 0 "L" "F" (by decide) (by decide)

/-! ## Claims about cache id generation (C6) -/

set_option maxRecDepth 4000 in
/-- Counterexample to claim C6 as stated: at cursor line 0 of a three-line
file the code hashes the first three characters of the file, not the lines
within distance 2 of the cursor, so the generated id differs from the
claimed one. -/
theorem generateCacheId_claim_counterexample :
    generateCacheId 0 (CodeContextInput.mk "abc\ndef\nghi" 0 0 "L" "F" "t") ≠
      cacheIdClaimC6 0 (CodeContextInput.mk "abc\ndef\nghi" 0 0 "L" "F" "t") := by
  decide

/-- Claim C6 as amended: the generated id is the current time, an
underscore, and the base-36 absolute value of the 32-bit string hash of the
character slice of `fileContent` between positions `max (cursorLine - 2) 0`
and `cursorLine + 3` concatenated with the suggestion-type tag. -/
theorem generateCacheId_amended (now : Int) (input : CodeContextInput) :
    generateCacheId now input = cacheIdAmendedC6 now input := by
  simp only [generateCacheId, cacheIdAmendedC6, jsSubstring]
  rw [filter_range_map_getD]

/-! ## Lemmas about the eviction sweep -/

@[simp] lemma readTriples_nil : readTriples [] = [] := rfl

@[simp] lemma readTriples_cons_none (k : RKey) (t : Int) (l : Store) :
    readTriples ((k, StoredVal.mk t none) :: l) = readTriples l := by
  simp [readTriples]

@[simp] lemma readTriples_cons_some (k : RKey) (t : Int) (e : CacheEntry) (l : Store) :
    readTriples ((k, StoredVal.mk t (some e)) :: l) =
      (k, e.timestamp, e.hitCount) :: readTriples l := by
  simp [readTriples]

lemma readTriples_map_fst_sublist (store : Store) :
    ((readTriples store).map Prod.fst).Sublist (store.map Prod.fst) := by
  induction store with
  | nil => simp
  | cons kv rest ih =>
    obtain ⟨k, t, d⟩ := kv
    cases d with
    | none =>
      rw [readTriples_cons_none, List.map_cons]
      exact ih.cons _
    | some e =>
      rw [readTriples_cons_some, List.map_cons, List.map_cons]
      exact ih.cons₂ _

lemma readTriples_del_filter (store : Store) (p : RKey → Bool) :
    readTriples ((store.filter (fun kv => kv.2.data.isSome)).filter (fun kv => p kv.1))
      = (readTriples store).filter (fun t => p t.1) := by
  induction store with
  | nil => rfl
  | cons kv rest ih =>
    obtain ⟨k, t, d⟩ := kv
    cases d with
    | none =>
      rw [readTriples_cons_none, List.filter_cons_of_neg (by simp), ih]
    | some e =>
      by_cases hp : p k
      · rw [readTriples_cons_some, List.filter_cons_of_pos (by simp),
          List.filter_cons_of_pos (by simpa using hp),
          List.filter_cons_of_pos (by simpa using hp),
          readTriples_cons_some, ih]
      · rw [readTriples_cons_some, List.filter_cons_of_pos (by simp),
          List.filter_cons_of_neg (by simpa using hp),
          List.filter_cons_of_neg (by simpa using hp), ih]

lemma filter_key_notin_take_perm (R sorted : List (RKey × Int × Int)) (k : Nat)
    (hperm : sorted.Perm R) (hnd : (R.map Prod.fst).Nodup) :
    (R.filter (fun t => ¬ (sorted.take k).any (fun td => td.1 = t.1))).Perm
      (sorted.drop k) := by
  set p : RKey × Int × Int → Bool :=
    fun t => ¬ (sorted.take k).any (fun td => td.1 = t.1) with hp
  have hnds : (sorted.map Prod.fst).Nodup := (hperm.map Prod.fst).nodup_iff.mpr hnd
  have h1 : (R.filter p).Perm (sorted.filter p) := (List.Perm.filter p hperm).symm
  have hsplit : sorted.filter p = (sorted.take k).filter p ++ (sorted.drop k).filter p := by
    conv_lhs => rw [← List.take_append_drop k sorted]
    rw [List.filter_append]
  have hdisj : ∀ x ∈ sorted.take k, ∀ y ∈ sorted.drop k, x.1 ≠ y.1 := by
    intro x hx y hy
    have hnd2 : ((sorted.take k).map Prod.fst ++ (sorted.drop k).map Prod.fst).Nodup := by
      rw [← List.map_append, List.take_append_drop]
      exact hnds
    rcases List.nodup_append.mp hnd2 with ⟨-, -, hdis⟩
    intro heq
    exact hdis (List.mem_map_of_mem Prod.fst hx) (heq ▸ List.mem_map_of_mem Prod.fst hy)
  have htake : (sorted.take k).filter p = [] := by
    rw [List.filter_eq_nil_iff]
    intro t ht
    have hany : (sorted.take k).any (fun td => td.1 = t.1) = true :=
      List.any_eq_true.mpr ⟨t, ht, by simp⟩
    simp [hp, hany]
  have hdrop : (sorted.drop k).filter p = sorted.drop k := by
    rw [List.filter_eq_self]
    intro t ht
    have hany : (sorted.take k).any (fun td => td.1 = t.1) = false := by
      rw [List.any_eq_false]
      intro td htd
      simp only [decide_eq_true_eq]
      exact hdisj td htd t ht
    simp [hp, hany]
  rw [hsplit, htake, hdrop, List.nil_append] at h1
  exact h1

/-- Claim C2, amended: with at most 1000 keys the sweep deletes nothing.
With more than 1000 keys it deletes every corrupted value, stably sorts the
readable `(key, timestamp, hitCount)` triples ascending by hit count then
timestamp, and deletes the keys named by
`entries.slice(0, entries.length - 1000 + 100)` under JS slice semantics:
when at least 900 readable entries exist, exactly the lowest-ranked ones
are deleted so that the 900 highest-ranked remain; when fewer than 900
readable entries exist, the negative slice bound wraps and the sweep
retains only the `readable - max (2·readable - 900) 0` highest-ranked
entries instead of all of them. -/
theorem cleanupOldEntries_spec (store : Store)
    (hnd : (store.map Prod.fst).Nodup) :
    (store.length ≤ MAX_CACHE_SIZE → cleanupOldEntries store = store) ∧
    (MAX_CACHE_SIZE < store.length →
      (∀ kv ∈ cleanupOldEntries store, kv.2.data.isSome = true) ∧
      List.Sorted entryLEP ((readTriples store).insertionSort entryLEP) ∧
      ((readTriples store).insertionSort entryLEP).Perm (readTriples store) ∧
      (readTriples (cleanupOldEntries store)).Perm
        (((readTriples store).insertionSort entryLEP).drop
          (jsSliceEnd (readTriples store).length
            (((readTriples store).length : Int) - (MAX_CACHE_SIZE : Int) + 100))) ∧
      (MAX_CACHE_SIZE - 100 ≤ (readTriples store).length →
        (readTriples (cleanupOldEntries store)).length = MAX_CACHE_SIZE - 100)) := by
  constructor
  · intro h
    unfold cleanupOldEntries
    rw [if_pos h]
  · intro h
    have hperm : ((readTriples store).insertionSort entryLEP).Perm (readTriples store) :=
      List.perm_insertionSort entryLEP _
    have hlensorted : ((readTriples store).insertionSort entryLEP).length =
        (readTriples store).length := hperm.length_eq
    have hcleanup : cleanupOldEntries store =
        (store.filter (fun kv => kv.2.data.isSome)).filter
          (fun kv =>
            ¬ (jsSliceTo ((readTriples store).insertionSort entryLEP)
                (((readTriples store).length : Int) - (MAX_CACHE_SIZE : Int) + 100)).any
              (fun t => t.1 = kv.1)) := by
      unfold cleanupOldEntries
      rw [if_neg (not_le.mpr h)]
    have hndR : ((readTriples store).map Prod.fst).Nodup :=
      hnd.sublist (readTriples_map_fst_sublist store)
    have hperm2 : (readTriples (cleanupOldEntries store)).Perm
        (((readTriples store).insertionSort entryLEP).drop
          (jsSliceEnd ((readTriples store).insertionSort entryLEP).length
            (((readTriples store).length : Int) - (MAX_CACHE_SIZE : Int) + 100))) := by
      rw [hcleanup]
      rw [readTriples_del_filter store
        (fun kk =>
          ¬ (jsSliceTo ((readTriples store).insertionSort entryLEP)
              (((readTriples store).length : Int) - (MAX_CACHE_SIZE : Int) + 100)).any
            (fun t => t.1 = kk))]
      exact filter_key_notin_take_perm (readTriples store)
        ((readTriples store).insertionSort entryLEP) _ hperm hndR
    refine ⟨?_, List.sorted_insertionSort entryLEP _, hperm, by rwa [hlensorted] at hperm2, ?_⟩
    · intro kv hkv
      rw [hcleanup] at hkv
      exact (List.mem_filter.mp (List.mem_filter.mp hkv).1).2
    · intro h900
      have hlen2 := hperm2.length_eq
      rw [List.length_drop, hlensorted] at hlen2
      rw [hlen2]
      simp only [jsSliceEnd, MAX_CACHE_SIZE] at h900 ⊢
      split_ifs with hneg
      · omega
      · omega

/-- Witness for the amended C2: on an empty store (at most 1000 keys) the
sweep deletes nothing. -/
theorem cleanupOldEntries_spec_witness : cleanupOldEntries [] = [] :=
  (cleanupOldEntries_spec [] (by simp)).1 (by simp)

set_option maxRecDepth 20000 in
/-- Counterexample to claim C2 as stated: `storeC2` has 1001 keys and 451
readable entries; the sweep leaves 449 readable entries — not the claimed
900, and not even the 451 that a least-deletion reading would allow, because
the JS `slice` bound `451 - 1000 + 100` is negative and wraps, deleting two
readable entries. -/
theorem cleanupOldEntries_claim_counterexample :
    MAX_CACHE_SIZE < storeC2.length ∧
    (readTriples storeC2).length = 451 ∧
    (readTriples (cleanupOldEntries storeC2)).length = 449 :=
  ⟨by decide, by decide, by decide⟩

end InstantCodeDB
